import Mathlib

/-!
# Verification of the goderive derivation engine against its specification

This file shallowly embeds the parts of the goderive code generator that the
frozen claims are about:

* the driver loop's convergence decision (`main`, driver file);
* the canonical type label `typeName` (helper.go);
* the call-site finder `finder.Visit` (derive/find.go);
* the generated comparison code for slices and maps
  (plugin/compose/compose.go, compare plugin section, `genStatement`);
* the generated deep-copy code for slices (plugin/copyto/copyto.go, `genField`);
* the bulk-copy predicate `canCopy` (copyto.go) and `isComparable`
  (equal generator file), and the statement emission of copyto's
  `genStatement`/`genField`;
* the copyto generator's `Add`.

Go's `go/types.Type` values are modelled by the inductive `GoType` below;
machine-level details (positions, the printer's textual indentation) are
dropped, but every branch of the embedded functions follows the source.
-/

namespace Goderive

/-- The basic (primitive) kinds the claims need, a subset of
`go/types.BasicKind`.  `untypedNil` is the kind `types.UntypedNil`, the
type of the untyped `nil` literal, which the source code treats specially
in `canCopy` / `isComparable`. -/
inductive BasicKind where
  | boolK
  | intK
  | int64K
  | stringK
  | byteK
  | float64K
  | untypedNil
  deriving DecidableEq, Repr

mutual
/-- Shallow model of `go/types.Type` restricted to the shapes the source
handles: Basic, Named (with a flag recording whether the named type has a
user-written `CopyTo` method, the only method the embedded copyto code
queries), Pointer, Array, Slice, Map and Struct.  A named type carries its
underlying type; in well-formed Go the underlying type is never itself
named. -/
inductive GoType where
  | basic (k : BasicKind)
  | named (name : String) (hasCopyTo : Bool) (u : GoType)
  | ptr (e : GoType)
  | array (n : Nat) (e : GoType)
  | slice (e : GoType)
  | mapT (k : GoType) (v : GoType)
  | strct (fs : FieldList)
  deriving DecidableEq, Repr

/-- The ordered field list of a struct: field name, whether the field is
inaccessible from the generating package (the spec's per-field visibility
flag, go/types' `!field.Exported()` for an external struct), and the field
type. -/
inductive FieldList where
  | nil
  | fcons (name : String) (priv : Bool) (t : GoType) (rest : FieldList)
  deriving DecidableEq, Repr
end

/-- The name `go/types` prints for a basic kind. -/
def kindName : BasicKind → String
  | .boolK => "bool"
  | .intK => "int"
  | .int64K => "int64"
  | .stringK => "string"
  | .byteK => "byte"
  | .float64K => "float64"
  | .untypedNil => "untyped nil"

mutual
/-- Model of `types.TypeString(typ, qual)`: the textual Go notation of a
type.  A named type prints as its (qualified) name. -/
def typeString : GoType → String
  | .basic k => kindName k
  | .named n _ _ => n
  | .ptr e => "*" ++ typeString e
  | .array n e => "[" ++ toString n ++ "]" ++ typeString e
  | .slice e => "[]" ++ typeString e
  | .mapT k v => "map[" ++ typeString k ++ "]" ++ typeString v
  | .strct fs => "struct\x7b" ++ fieldListString fs ++ "\x7d"

def fieldListString : FieldList → String
  | .nil => ""
  | .fcons n _ t rest => n ++ " " ++ typeString t ++ "; " ++ fieldListString rest
end

/-- Embeds `typeName` from helper.go:

```
func typeName(typ types.Type, qual types.Qualifier) string {
    switch t := typ.(type) {
    case *types.Pointer:
        return "PtrTo" + typeName(t.Elem(), qual)
    case *types.Array:
        sizeStr := strconv.Itoa(int(t.Len()))
        return "Array" + sizeStr + "Of" + typeName(t.Elem(), qual)
    case *types.Slice:
        return "SliceOf" + typeName(t.Elem(), qual)
    case *types.Map:
        return "MapOf" + typeName(t.Key(), qual) + "To" + typeName(t.Elem(), qual)
    }
    return types.TypeString(typ, qual)
}
```
-/
def typeName : GoType → String
  | .ptr e => "PtrTo" ++ typeName e
  | .array n e => "Array" ++ toString n ++ "Of" ++ typeName e
  | .slice e => "SliceOf" ++ typeName e
  | .mapT k v => "MapOf" ++ typeName k ++ "To" ++ typeName v
  | t => typeString t

/-- `types.Identical` on the model: structural identity.  Named types are
identical exactly when they are the same named type (same name, and in a
well-formed model the same underlying type), all other shapes compare
structurally, which is what `go/types.Identical` does. -/
def Identical (t u : GoType) : Bool := t = u

/-- Model of `go/types`' `Type.Underlying()`: unwrap a named type to its
underlying type (the underlying type of a named type is never named, so
recursing is equivalent to the single unwrap the Go method performs). -/
def underlying : GoType → GoType
  | .named _ _ u => underlying u
  | t => t

/-! ## C1: the driver loop's convergence decision (driver `main`)

```
ungenerated := -1
for ungenerated != 0 {
    ...
    if len(notgenerated) > 0 {
        if ungenerated == len(notgenerated) {
            for _, c := range notgenerated {
                log.Fatalf("cannot generate %s", types.ExprString(c))
            }
        }
    }
    ungenerated = len(notgenerated)
    ...
}
```

`driverStep prev count` is the decision taken after a full pass that left
`count` unresolved calls, where `prev` is `ungenerated` before the pass
(`-1` before the first pass, the previous pass's count afterwards):
`log.Fatalf` aborts the run when the non-empty count equals the previous
one; otherwise the loop condition `ungenerated != 0` re-enters the loop
exactly when the count is non-zero. -/

inductive PassResult where
  | fatalErr
  | success
  | loopAgain
  deriving DecidableEq, Repr

/-- The per-pass decision of the driver loop (driver file, `main`). -/
def driverStep (prev : Int) (count : Nat) : PassResult :=
  if 0 < count ∧ prev = (count : Int) then .fatalErr
  else if count = 0 then .success
  else .loopAgain

/-! ## C3 / C10: the call-site finder (derive/find.go, `finder.Visit`) -/

/-- How the callee of a call expression resolves against the package's
`Uses` map and the file set, the inputs `finder.Visit` inspects:
`unresolved` models `pkgInfo.Uses[fn]` missing; `builtin` a
`*types.Builtin`; `declaredAt none` a symbol whose position has no file
(`Fset.File(def.Pos()) == nil`, e.g. a type conversion like `float64(x)`);
`declaredAt (some f)` a symbol defined in the file with base name `f`. -/
inductive Resolution where
  | unresolved
  | builtin
  | declaredAt (file : Option String)
  deriving DecidableEq, Repr

/-- A call expression as the finder sees it: either its `Fun` is not a
plain `*ast.Ident` (method call, package-qualified call, ...), or it is an
identifier with a name and a resolution. -/
inductive CallExprM where
  | notIdent
  | ident (name : String) (res : Resolution)
  deriving DecidableEq, Repr

/-- The generated output file's fixed base name (`derivedFilename`). -/
def derivedFilename : String := "derived.gen.go"

/-- The finder's accumulated state: the `undefined` and `derived` call
lists and the `funcNames` set (modelled as a list). -/
structure FinderState where
  undefined : List CallExprM
  derived : List CallExprM
  funcNames : List String
  deriving DecidableEq, Repr

/-- Embeds `finder.Visit` (derive/find.go lines 83-112) acting on one call
expression:

```
fn, ok := call.Fun.(*ast.Ident)
if !ok { return this }
def, ok := this.pkgInfo.Uses[fn]
if !ok { this.undefined = append(this.undefined, call); return this }
if _, ok := def.(*types.Builtin); ok { return this }
file := this.program.Fset.File(def.Pos())
if file == nil { return this }
_, filename := filepath.Split(file.Name())
if filename == derivedFilename { this.derived = append(this.derived, call); return this }
this.funcNames[fn.Name] = struct{}{}
return this
```
-/
def visit (s : FinderState) (c : CallExprM) : FinderState :=
  match c with
  | .notIdent => s
  | .ident name res =>
    match res with
    | .unresolved => { s with undefined := s.undefined ++ [c] }
    | .builtin => s
    | .declaredAt none => s
    | .declaredAt (some filename) =>
      if filename = derivedFilename then { s with derived := s.derived ++ [c] }
      else { s with funcNames := s.funcNames ++ [name] }

/-- The classification outcome of a single `Visit` step, read off from how
the state changed. -/
inductive Outcome where
  | undefinedC
  | derivedC
  | recordedC
  | skippedC
  deriving DecidableEq, Repr

/-- The outcome `visit` produces for a call (matching the branch structure
of `finder.Visit`). -/
def classify (c : CallExprM) : Outcome :=
  match c with
  | .notIdent => .skippedC
  | .ident _ res =>
    match res with
    | .unresolved => .undefinedC
    | .builtin => .skippedC
    | .declaredAt none => .skippedC
    | .declaredAt (some filename) =>
      if filename = derivedFilename then .derivedC else .recordedC

/-! ## C7: `canCopy` (copyto.go) and `isComparable` (equal generator) -/

mutual
/-- Embeds `canCopy` from plugin/copyto/copyto.go:

```
func canCopy(tt types.Type) bool {
    t := tt.Underlying()
    switch typ := t.(type) {
    case *types.Basic:
        return typ.Kind() != types.UntypedNil
    case *types.Struct:
        for i := 0; i < typ.NumFields(); i++ {
            f := typ.Field(i)
            ft := f.Type()
            if !canCopy(ft) { return false }
        }
        return true
    case *types.Array:
        return canCopy(typ.Elem())
    }
    return false
}
```

The named case recurses into the underlying type, translating the
`tt.Underlying()` call. -/
def canCopy : GoType → Bool
  | .named _ _ u => canCopy u
  | .basic k => k != BasicKind.untypedNil
  | .strct fs => canCopyFields fs
  | .array _ e => canCopy e
  | _ => false

def canCopyFields : FieldList → Bool
  | .nil => true
  | .fcons _ _ t rest => canCopy t && canCopyFields rest
end

mutual
/-- Embeds `isComparable` from the equal generator file (textually the
same predicate as `canCopy`, in the other package). -/
def isComparable : GoType → Bool
  | .named _ _ u => isComparable u
  | .basic k => k != BasicKind.untypedNil
  | .strct fs => isComparableFields fs
  | .array _ e => isComparable e
  | _ => false

def isComparableFields : FieldList → Bool
  | .nil => true
  | .fcons _ _ t rest => isComparable t && isComparableFields rest
end

mutual
/-- Modelled from the spec: the claim's bulk-comparable closure, following
the spec's words — "a transitive closure over Basic and over Aggregates
whose every field is bulk-comparable or a bulk-comparable FixedArray" —
with no exclusion of any basic kind. -/
def bulkSpec : GoType → Bool
  | .named _ _ u => bulkSpec u
  | .basic _ => true
  | .strct fs => bulkSpecFields fs
  | .array _ e => bulkSpec e
  | _ => false

def bulkSpecFields : FieldList → Bool
  | .nil => true
  | .fcons _ _ t rest => bulkSpec t && bulkSpecFields rest
end

mutual
/-- The amended bulk-comparable closure as an inductive predicate: the
least predicate containing the basic types other than untyped nil and
closed under named wrapping, fixed arrays, and structs all of whose fields
are bulk-comparable. -/
inductive BulkComparable : GoType → Prop where
  | basicBC (k : BasicKind) (h : k ≠ BasicKind.untypedNil) :
      BulkComparable (.basic k)
  | namedBC (n : String) (b : Bool) (u : GoType) (h : BulkComparable u) :
      BulkComparable (.named n b u)
  | arrayBC (n : Nat) (e : GoType) (h : BulkComparable e) :
      BulkComparable (.array n e)
  | structBC (fs : FieldList) (h : BulkFields fs) :
      BulkComparable (.strct fs)

inductive BulkFields : FieldList → Prop where
  | nilBF : BulkFields .nil
  | consBF (nm : String) (p : Bool) (t : GoType) (rest : FieldList)
      (ht : BulkComparable t) (hr : BulkFields rest) :
      BulkFields (.fcons nm p t rest)
end

/-! ## C5: the generated slice comparison (compose.go, compare plugin,
`genStatement`, `*types.Slice` case)

The generated function body is

```
if this == nil { if that == nil { return 0 }; return -1 }
if that == nil { return 1 }
if len(this) != len(that) { if len(this) < len(that) { return -1 }; return 1 }
for i := 0; i < len(this); i++ {
    if c := <compare this[i] that[i]>; c != 0 { return c }
}
return 0
```

`sliceCompare cmp` is its denotation; a Go slice is `Option (List α)`
(`none` is the nil slice), and `cmp` is the element comparison the
generator emits for the element type. -/

/-- The element loop of the generated slice comparison: walk both slices
in index order, return the first non-zero element comparison. -/
def sliceCompareLoop (cmp : α → α → Int) : List α → List α → Int
  | [], _ => 0
  | _, [] => 0
  | x :: xs, y :: ys =>
    let c := cmp x y
    if c ≠ 0 then c else sliceCompareLoop cmp xs ys

/-- Denotation of the generated comparison for a variable-length sequence
type. -/
def sliceCompare (cmp : α → α → Int) : Option (List α) → Option (List α) → Int
  | none, none => 0
  | none, some _ => -1
  | some _, none => 1
  | some xs, some ys =>
    if xs.length ≠ ys.length then
      if xs.length < ys.length then -1 else 1
    else sliceCompareLoop cmp xs ys

/-! ## C4: the generated map comparison (compose.go, compare plugin,
`genStatement`, `*types.Map` case)

The generated function body is

```
if this == nil { if that == nil { return 0 }; return -1 }
if that == nil { return 1 }
if len(this) != len(that) { if len(this) < len(that) { return -1 }; return 1 }
thiskeys := deriveSort(deriveKeys(this))
thatkeys := deriveSort(deriveKeys(that))
for i, thiskey := range thiskeys {
    thatkey := thatkeys[i]
    if thiskey == thatkey {
        thisvalue := this[thiskey]
        thatvalue := that[thatkey]
        if c := <compare values>; c != 0 { return c }
    } else {
        if c := <compare keys>; c != 0 { return c }
    }
}
return 0
```

A Go map is `Option (List (κ × υ))` (an association list with distinct
keys; `none` is the nil map).  The derived sort applied to both key slices
is the parameter `sortK`; the emitted key and value comparisons are
`cmpK`, `cmpV`.  Go's map read `m[k]` yields the zero value `zero` when
the key is absent. -/

/-- Go map read `m[k]`: the value at `k`, or the zero value. -/
def mapRead [DecidableEq κ] (m : List (κ × υ)) (zero : υ) (k : κ) : υ :=
  match m.find? (fun p => decide (p.1 = k)) with
  | some p => p.2
  | none => zero

/-- The paired-key loop of the generated map comparison. -/
def mapCompareLoop [DecidableEq κ] (cmpK : κ → κ → Int) (cmpV : υ → υ → Int)
    (zero : υ) (a b : List (κ × υ)) : List κ → List κ → Int
  | [], _ => 0
  | _, [] => 0
  | tk :: tks, qk :: qks =>
    if tk = qk then
      let c := cmpV (mapRead a zero tk) (mapRead b zero qk)
      if c ≠ 0 then c else mapCompareLoop cmpK cmpV zero a b tks qks
    else
      let c := cmpK tk qk
      if c ≠ 0 then c else mapCompareLoop cmpK cmpV zero a b tks qks

/-- Denotation of the generated comparison for a map type. -/
def mapCompare [DecidableEq κ] (cmpK : κ → κ → Int) (cmpV : υ → υ → Int)
    (sortK : List κ → List κ) (zero : υ) :
    Option (List (κ × υ)) → Option (List (κ × υ)) → Int
  | none, none => 0
  | none, some _ => -1
  | some _, none => 1
  | some a, some b =>
    if a.length ≠ b.length then
      if a.length < b.length then -1 else 1
    else
      mapCompareLoop cmpK cmpV zero a b
        (sortK (a.map Prod.fst)) (sortK (b.map Prod.fst))

/-! ## C6: the generated slice deep-copy (copyto.go, `genField`,
`*types.Slice` case)

The generated code is

```
if src == nil {
    dst = nil
} else {
    if dst != nil {
        if len(src) > len(dst) {
            if cap(dst) >= len(src) { dst = (dst)[:len(src)] }
            else { dst = make([]T, len(src)) }
        } else if len(src) < len(dst) { dst = (dst)[:len(src)] }
    } else { dst = make([]T, len(src)) }
    copy(dst, src)            // bulk-copyable elements
    // or deriveCopyToSliceOfT(src, dst), which runs
    // `for i, v := range src { <copy v into dst[i]> }`
}
```

A non-nil Go slice is modelled with its backing allocation identity
(`arr`), its length, its capacity and the backing contents; a nil slice is
`none`.  `copyElem` is the element copy the generator emits (the identity
for bulk-copyable elements). -/

/-- A non-nil Go slice value: allocation identity, length, capacity and
backing contents. -/
structure GoSlice (α : Type) where
  arr : Nat
  len : Nat
  cap : Nat
  back : List α
  deriving DecidableEq, Repr

/-- The elements a slice exposes. -/
def GoSlice.visible (s : GoSlice α) : List α := s.back.take s.len

/-- Denotation of the generated deep-copy for a variable-length sequence
type: `fresh` is the allocation identity a `make` would create. -/
def sliceCopyTo (zero : α) (copyElem : α → α)
    (src dst : Option (GoSlice α)) (fresh : Nat) : Option (GoSlice α) :=
  match src with
  | none => none
  | some s =>
    let d1 : GoSlice α :=
      match dst with
      | some d =>
        if s.len > d.len then
          if d.cap ≥ s.len then { d with len := s.len }
          else { arr := fresh, len := s.len, cap := s.len, back := List.replicate s.len zero }
        else if s.len < d.len then { d with len := s.len }
        else d
      | none => { arr := fresh, len := s.len, cap := s.len, back := List.replicate s.len zero }
    some { d1 with back := (s.back.take s.len).map copyElem ++ d1.back.drop s.len }

/-! ## C7 / C8: the copyto generator's statement emission
(copyto.go, `genStatement` and `genField`)

Each `p.P` call of the source maps to one `CStmt`; conditional blocks map
to `ifS` with the printed condition text; statements whose exact shape no
claim inspects are kept as `raw` lines rendered with the source's format
strings. -/

inductive CStmt where
  | assign (lhs rhs : String)
  | copyB (dst src : String)
  | callFn (fn : String) (a : String) (b : String)
  | rangeFor (i : String) (v : String) (coll : String) (body : List CStmt)
  | reflectSetup (v : String) (target : String)
  | ifS (cond : String) (thenB : List CStmt) (elseB : List CStmt)
  | raw (s : String)

/-- Embeds copyto.go's `wrap`: parenthesize when the value starts with
`*` or `&` or ends with `]` (computed on the character list so that it
evaluates by kernel reduction). -/
def wrapC (value : String) : String :=
  if value.data.head? = some '*' ∨ value.data.head? = some '&'
      ∨ value.data.getLast? = some ']' then
    "(" ++ value ++ ")"
  else value

/-- Embeds copyto.go's `prepend`: `strings.Split(before, ".")[0]` is the
prefix before the first `.`, `strings.Replace(…, "*", "", -1)` drops every
`*` (computed on the character list so that it evaluates by kernel
reduction). -/
def prepend (before after : String) : String :=
  String.mk ((before.data.takeWhile (· ≠ '.')).filter (· ≠ '*')) ++ "_" ++ after

/-- Embeds copyto.go's `nullable`. -/
def nullable : GoType → Bool
  | .ptr _ => true
  | .slice _ => true
  | .mapT _ _ => true
  | _ => false

/-- Modelled from the spec: the naming registry's `GetFuncName` (the
`derive.TypesMap` implementation is not under src/) — the deterministic
generated name, operation prefix followed by the canonical type label. -/
def getFuncName (t : GoType) : String := "deriveCopyTo" ++ typeName t

/-- Ordinary field access, `field.Name(base, nil)`: the selector
`base.name`. -/
def ordinaryAccess (base name : String) : String := base ++ "." ++ name

/-- Modelled from the spec: `field.Name(v, unsafePkg)` (the
`derive.StructField` implementation is not under src/) — the low-level
memory-address-based accessor through the reflect value `v`. -/
def fallbackAccess (v name : String) (ft : GoType) : String :=
  "*(*" ++ typeString ft ++ ")(unsafe.Pointer(" ++ v ++ ".FieldByName(" ++ name
    ++ ").UnsafeAddr()))"

/-- Modelled from the spec: `derive.Fields(...).Reflect` — the detection
pass marks an aggregate as requiring low-level access if any field is
inaccessible. -/
def anyPrivate : FieldList → Bool
  | .nil => false
  | .fcons _ p _ rest => p || anyPrivate rest

/-- Embeds copyto.go lines 162-167: the per-field accessor choice inside
`genStatement`'s pointer-to-named-struct case —

```
if !field.Private() {
    thisField, thatField = field.Name(this, nil), field.Name(that, nil)
} else {
    thisField, thatField = field.Name(thisv, g.unsafePkg), field.Name(thatv, g.unsafePkg)
}
```
-/
def fieldAccessPair (thisS thatS thisv thatv name : String) (priv : Bool)
    (ft : GoType) : String × String :=
  if !priv then (ordinaryAccess thisS name, ordinaryAccess thatS name)
  else (fallbackAccess thisv name ft, fallbackAccess thatv name ft)

mutual
/-- Embeds copyto.go `gen.genStatement` (lines 133-231).  The switch on
`typ.Underlying()` is translated by delegating the named case to the
underlying type; only error-message text can differ from the source for
named types with unsupported underlying shape.  The field loop of the
pointer-to-named-struct case (lines 152-172, with `derive.Fields`
modelled from the spec) is written inline. -/
def copytoGenStatement (t : GoType) (thisS thatS : String) :
    Except String (List CStmt) :=
  if canCopy t then .ok [.assign thatS thisS]
  else
    match t with
    | .named _ _ u => copytoGenStatement u thisS thatS
    | .ptr e =>
      match e with
      | .named _ _ (.strct fs) =>
        -- lines 152-172: nothing is emitted for an empty field list
        (match fs with
         | .nil => .ok []
         | fs' => do
            let thisv := prepend thisS "v"
            let thatv := prepend thatS "v"
            let pre : List CStmt :=
              if anyPrivate fs' then
                [.reflectSetup thisv thisS, .reflectSetup thatv thatS]
              else []
            let body ← copytoFieldsStmts fs' thisS thatS thisv thatv
            return pre ++ body)
      | .strct _ => .error ("unsupported copyto type: *" ++ typeString e)
      | e' => copytoGenField e' ("*" ++ thisS) ("*" ++ thatS)
    | .slice e =>
      if canCopy e then .ok [.copyB thatS thisS]
      else do
        let body ← copytoGenField e (prepend thisS "value")
          (wrapC thatS ++ "[" ++ prepend thisS "i" ++ "]")
        return [.rangeFor (prepend thisS "i") (prepend thisS "value") thisS body]
    | .array _ e => do
        let body ← copytoGenField e (prepend thisS "value")
          (wrapC thatS ++ "[" ++ prepend thisS "i" ++ "]")
        return [.rangeFor (prepend thisS "i") (prepend thisS "value") thisS body]
    | .mapT kt vt => do
        let thiskey := prepend thisS "key"
        let thisvalue := prepend thisS "value"
        -- lines 209-215: thatkey := thiskey; if the key type needs a deep
        -- copy, emit it and switch to a fresh key variable
        let keyStep ←
          if canCopy kt then pure (([] : List CStmt), thiskey)
          else do
            let s ← copytoGenField kt thiskey thiskey
            pure (s, prepend thatS "key")
        let nilStep : List CStmt :=
          if nullable vt then
            [.ifS (thisvalue ++ " == nil")
              [.assign (wrapC thatS ++ "[" ++ keyStep.2 ++ "]") "nil"] []]
          else []
        let valStep ← copytoGenField vt thisvalue
          (wrapC thatS ++ "[" ++ keyStep.2 ++ "]")
        return [.rangeFor thiskey thisvalue thisS (keyStep.1 ++ nilStep ++ valStep)]
    | _ => .error ("unsupported copyto type: " ++ typeString t)

/-- The per-field emission of the field loop in `copytoGenStatement`'s
pointer-to-named-struct case (copyto.go lines 160-170). -/
def copytoFieldsStmts (fs : FieldList) (thisS thatS thisv thatv : String) :
    Except String (List CStmt) :=
  match fs with
  | .nil => .ok []
  | .fcons name priv ft rest => do
    let pair := fieldAccessPair thisS thatS thisv thatv name priv ft
    let stmts ← copytoGenField ft pair.1 pair.2
    let restS ← copytoFieldsStmts rest thisS thatS thisv thatv
    return stmts ++ restS

/-- Embeds copyto.go `gen.genField` (lines 306-400).  As in
`copytoGenStatement`, the switch on `fieldType.Underlying()` delegates
named types with non-struct underlying shape to the underlying type; a
named type with struct underlying keeps its own name for `new`/
`GetFuncName` and its `CopyTo` method flag, as the source reads them off
the original `fieldType`. -/
def copytoGenField (ft : GoType) (thisF thatF : String) :
    Except String (List CStmt) :=
  if canCopy ft then .ok [.assign thatF thisF]
  else
    match ft with
    | .named nm hc u =>
      match u with
      | .strct _ =>
        .ok [.raw ("field := new(" ++ nm ++ ")"),
             if hc then .raw (wrapC thisF ++ ".CopyTo(field)")
             else .callFn (getFuncName ft) thisF thatF,
             .assign thatF "*field"]
      | u' => copytoGenField u' thisF thatF
    | .ptr e =>
      .ok [.ifS (thisF ++ " == nil")
            [.assign thatF "nil"]
            ([.raw (thatF ++ " = new(" ++ typeString e ++ ")")]
              ++ [if e matches .named _ true _ then
                    .raw (wrapC thisF ++ ".CopyTo(" ++ thatF ++ ")")
                  else if canCopy e then .assign ("*" ++ thatF) ("*" ++ thisF)
                  else .callFn (getFuncName (.ptr e)) thisF thatF])]
    | .array _ e =>
      -- line 333: the source calls genStatement on the same (array) field
      -- type, whose canCopy is false here, so that call takes exactly the
      -- element range loop of the `*types.Array` case above; the source
      -- discards the returned error, keeping what was printed
      (match (do
          let body ← copytoGenField e (prepend thisF "value")
            (wrapC thatF ++ "[" ++ prepend thisF "i" ++ "]")
          return [CStmt.rangeFor (prepend thisF "i") (prepend thisF "value") thisF body] :
          Except String (List CStmt)) with
       | .ok s => .ok s
       | .error _ => .ok [])
    | .slice e =>
      .ok [.ifS (thisF ++ " == nil")
            [.assign thatF "nil"]
            ([.ifS (thatF ++ " != nil")
               [.ifS ("len(" ++ thisF ++ ") > len(" ++ thatF ++ ")")
                  [.ifS ("cap(" ++ thatF ++ ") >= len(" ++ thisF ++ ")")
                     [.raw (thatF ++ " = (" ++ thatF ++ ")[:len(" ++ thisF ++ ")]")]
                     [.raw (thatF ++ " = make(" ++ typeString (.slice e)
                        ++ ", len(" ++ thisF ++ "))")]]
                  [.ifS ("len(" ++ thisF ++ ") < len(" ++ thatF ++ ")")
                     [.raw (thatF ++ " = (" ++ thatF ++ ")[:len(" ++ thisF ++ ")]")]
                     []]]
               [.raw (thatF ++ " = make(" ++ typeString (.slice e)
                  ++ ", len(" ++ thisF ++ "))")]]
             ++ [if canCopy e then .copyB thatF thisF
                 else .callFn (getFuncName (.slice e)) thisF thatF])]
    | .mapT kt vt =>
      .ok [.ifS (thisF ++ " != nil")
            [.raw (thatF ++ " = make(" ++ typeString (.mapT kt vt)
               ++ ", len(" ++ thisF ++ "))"),
             .callFn (getFuncName (.mapT kt vt)) thisF thatF]
            [.assign thatF "nil"]]
    | .strct _ =>
      .ok [.raw ("field := new(" ++ typeString ft ++ ")"),
           .callFn (getFuncName ft) thisF thatF,
           .assign thatF "*field"]
    | t => .error ("unsupported field type " ++ typeString t)
end

/-! ## C9: the copyto generator's `Add` (copyto.go lines 103-112)

```
func (this *gen) Add(name string, typs []types.Type) (string, error) {
    if len(typs) != 2 {
        return "", fmt.Errorf("%s does not have two arguments", name)
    }
    if !types.Identical(typs[0], typs[1]) {
        return "", fmt.Errorf("%s has two arguments, but they are of different types %s != %s",
            name, this.TypeString(typs[0]), this.TypeString(typs[1]))
    }
    return this.SetFuncName(name, typs[0])
}
```
-/

/-- Modelled from the spec: the naming/memoization registry's state (§4.1;
the `derive.TypesMap` implementation is not under src/) — the reservations
made so far (name, argument type), the pre-existing user function names a
generated name may conflict with, and the autoname flag. -/
structure Registry where
  reserved : List (String × GoType)
  userFuncs : List String
  autoname : Bool
  deriving DecidableEq, Repr

/-- Modelled from the spec: `TypesMap.SetFuncName`, the registry's
`Reserve` (§4.1; the `derive.TypesMap` implementation is not under src/):
re-reserving an already-reserved (name, type) pair returns the same name
(the record is never duplicated); a name that collides with a pre-existing
user function fails with a naming-conflict error unless autoname is
enabled, in which case a disambiguating suffix is appended (the spec does
not fix the suffix's exact form) and the rename is recorded; otherwise the
requested name is reserved for the type and returned. -/
def setFuncName (reg : Registry) (name : String) (t : GoType) :
    Except String (String × Registry) :=
  if (name, t) ∈ reg.reserved then .ok (name, reg)
  else if reg.userFuncs.contains name then
    if reg.autoname then
      .ok (name ++ "_",
        { reg with reserved := reg.reserved ++ [(name ++ "_", t)] })
    else .error ("naming conflict: a user function " ++ name
      ++ " already exists")
  else .ok (name, { reg with reserved := reg.reserved ++ [(name, t)] })

/-- Embeds copyto.go `gen.Add`: arity check, identity check, then the
registry's reserve; on success, the assigned name and the updated
registry. -/
def copytoAdd (reg : Registry) (name : String)
    (typs : List GoType) : Except String (String × Registry) :=
  if typs.length ≠ 2 then
    .error (name ++ " does not have two arguments")
  else
    match typs with
    | [t0, t1] =>
      if !Identical t0 t1 then
        .error (name ++ " has two arguments, but they are of different types "
          ++ typeString t0 ++ " != " ++ typeString t1)
      else setFuncName reg name t0
    | _ => .error (name ++ " does not have two arguments")

/-- The spec's reference-capable shapes (pointer, sequence, map), used to
state what C9 claims `Add` rejects. -/
def referenceCapable : GoType → Bool
  | .ptr _ => true
  | .slice _ => true
  | .mapT _ _ => true
  | _ => false

/-! # Theorems for the claims -/

/-- C1, counterexample: the claim says the driver loops again (given a
non-empty unresolved set) exactly when the count is strictly smaller than
the previous pass's count; but with previous count 1 and current count 2
the code loops again although the count is not strictly smaller — the
source's condition is `ungenerated != len(notgenerated)`, difference, not
decrease. -/
theorem claim_C1_counterexample :
    driverStep 1 2 = PassResult.loopAgain ∧ ¬ ((2 : Int) < 1) := by
  exact ⟨by decide, by decide⟩

/-- C1, amended: after a full pass leaving `count` unresolved calls, with
`prev` the previous pass's count (`-1` before the first pass), the driver
loops again exactly when the count is non-zero and differs from the
previous count (not only when it is strictly smaller), raises a fatal
error exactly when the count is non-zero and unchanged, and terminates
successfully (emitting what was generated) exactly when the count is
zero. -/
theorem claim_C1_amended (prev : Int) (count : Nat) :
    (driverStep prev count = PassResult.loopAgain ↔
      0 < count ∧ prev ≠ (count : Int)) ∧
    (driverStep prev count = PassResult.fatalErr ↔
      0 < count ∧ prev = (count : Int)) ∧
    (driverStep prev count = PassResult.success ↔ count = 0) := by
  unfold driverStep
  split_ifs with h1 h2 <;> simp_all <;> omega

/-- C1, witness for the amended theorem: the first pass (previous count
`-1`) with three unresolved calls loops again. -/
theorem claim_C1_witness : driverStep (-1) 3 = PassResult.loopAgain :=
  (claim_C1_amended (-1) 3).1.mpr (by decide)

/-- C2, counterexample: `typeName` is not injective up to structural
identity — a user-defined named type whose name is `PtrToint` and the
structurally different pointer type `*int` produce the same label
`PtrToint`. -/
theorem claim_C2_counterexample :
    typeName (GoType.named "PtrToint" false (GoType.strct FieldList.nil))
      = typeName (GoType.ptr (GoType.basic BasicKind.intK)) ∧
    Identical (GoType.named "PtrToint" false (GoType.strct FieldList.nil))
      (GoType.ptr (GoType.basic BasicKind.intK)) = false := by
  exact ⟨rfl, by decide⟩

/-- C2, amended: `typeName` is a pure function of the type, so
structurally identical types always produce the same label; but it is not
injective — structurally different types can collide (see the
counterexample). -/
theorem claim_C2_amended (t u : GoType) (h : Identical t u = true) :
    typeName t = typeName u := by
  have ht : t = u := by simpa [Identical] using h
  rw [ht]

/-- C2, witness for the amended theorem at a concrete identical pair. -/
theorem claim_C2_witness :
    typeName (GoType.slice (GoType.basic BasicKind.intK))
      = typeName (GoType.slice (GoType.basic BasicKind.intK)) :=
  claim_C2_amended _ _ (by decide)

/-- C3, counterexample: a call whose identifier resolves to a builtin
(e.g. `len`) resolves to something whose defining location is not the
generated output file, yet its name is not recorded in the known user
function names — `finder.Visit` leaves it unclassified, against the
claim's "otherwise its name is recorded". -/
theorem claim_C3_counterexample :
    classify (CallExprM.ident "len" Resolution.builtin) = Outcome.skippedC ∧
    visit ⟨[], [], []⟩ (CallExprM.ident "len" Resolution.builtin)
      = ⟨[], [], []⟩ := by
  exact ⟨rfl, rfl⟩

/-- C3, amended: for a call whose callee is a plain identifier — if it
resolves to nothing it is classified undefined; if it resolves to a symbol
defined in derived.gen.go it is classified derived; if it resolves to a
non-builtin symbol with a source position in any other file its name is
recorded in the known user function names; builtins and position-less
symbols (type conversions) are left unclassified; and the outcomes are
mutually exclusive, each updating exactly its own part of the finder
state. -/
theorem claim_C3_amended (s : FinderState) (name : String) (res : Resolution) :
    (classify (.ident name res) = Outcome.undefinedC ↔
      res = Resolution.unresolved) ∧
    (classify (.ident name res) = Outcome.derivedC ↔
      res = Resolution.declaredAt (some derivedFilename)) ∧
    (classify (.ident name res) = Outcome.recordedC ↔
      ∃ f, res = Resolution.declaredAt (some f) ∧ f ≠ derivedFilename) ∧
    (classify (.ident name res) = Outcome.undefinedC →
      visit s (.ident name res)
        = { s with undefined := s.undefined ++ [.ident name res] }) ∧
    (classify (.ident name res) = Outcome.derivedC →
      visit s (.ident name res)
        = { s with derived := s.derived ++ [.ident name res] }) ∧
    (classify (.ident name res) = Outcome.recordedC →
      visit s (.ident name res)
        = { s with funcNames := s.funcNames ++ [name] }) ∧
    (classify (.ident name res) = Outcome.skippedC →
      visit s (.ident name res) = s) := by
  rcases res with _ | _ | f
  · simp [classify, visit]
  · simp [classify, visit]
  · rcases f with _ | f
    · simp [classify, visit]
    · by_cases hf : f = derivedFilename <;> simp [classify, visit, hf]

/-- C3, witness for the amended theorem: an unresolved identifier call is
appended to the undefined list. -/
theorem claim_C3_witness :
    visit ⟨[], [], []⟩ (CallExprM.ident "foo" Resolution.unresolved)
      = ⟨[CallExprM.ident "foo" Resolution.unresolved], [], []⟩ := by
  have h := (claim_C3_amended ⟨[], [], []⟩ "foo" Resolution.unresolved).2.2.2.1 rfl
  simpa using h

/-- C10: a call whose callee is not a plain identifier, or resolves to a
builtin, or resolves to a symbol with no source position, is classified
neither as undefined nor as derived, and `finder.Visit` leaves both the
undefined and the derived call lists unchanged — such calls can never
become derivation requests. -/
theorem claim_C10 (s : FinderState) (c : CallExprM)
    (h : c = CallExprM.notIdent ∨
      (∃ n, c = CallExprM.ident n Resolution.builtin) ∨
      (∃ n, c = CallExprM.ident n (Resolution.declaredAt none))) :
    classify c ≠ Outcome.undefinedC ∧ classify c ≠ Outcome.derivedC ∧
    (visit s c).undefined = s.undefined ∧ (visit s c).derived = s.derived := by
  rcases h with rfl | ⟨n, rfl⟩ | ⟨n, rfl⟩ <;> simp [classify, visit]

/-- C10, witness: a builtin call (`len`) is not classified as undefined. -/
theorem claim_C10_witness :
    classify (CallExprM.ident "len" Resolution.builtin) ≠ Outcome.undefinedC :=
  (claim_C10 ⟨[], [], []⟩ _ (Or.inr (Or.inl ⟨"len", rfl⟩))).1

/-- C4: the generated map comparison short-circuits on nil (nil/nil equal,
nil below non-nil) and on length mismatch — where the result depends on
nothing but the two lengths, so no key or value comparator and no sort is
ever consulted — and only then pairs, by index, the two key slices
obtained from the same sort function; at each paired position equal keys
recurse into the corresponding values (read from each map) while unequal
keys let the key-ordering comparison itself decide, so it is not a simple
key-by-key lookup. -/
theorem claim_C4 {κ υ : Type} [DecidableEq κ]
    (cmpK cmpKAlt : κ → κ → Int) (cmpV cmpVAlt : υ → υ → Int)
    (sortK sortKAlt : List κ → List κ) (zero zeroAlt : υ) :
    (mapCompare cmpK cmpV sortK zero none none = 0) ∧
    (∀ b, mapCompare cmpK cmpV sortK zero none (some b) = -1) ∧
    (∀ a, mapCompare cmpK cmpV sortK zero (some a) none = 1) ∧
    (∀ a b : List (κ × υ), a.length ≠ b.length →
      mapCompare cmpK cmpV sortK zero (some a) (some b)
        = (if a.length < b.length then -1 else 1) ∧
      mapCompare cmpK cmpV sortK zero (some a) (some b)
        = mapCompare cmpKAlt cmpVAlt sortKAlt zeroAlt (some a) (some b)) ∧
    (∀ a b : List (κ × υ), a.length = b.length →
      mapCompare cmpK cmpV sortK zero (some a) (some b)
        = mapCompareLoop cmpK cmpV zero a b
            (sortK (a.map Prod.fst)) (sortK (b.map Prod.fst))) ∧
    (∀ (a b : List (κ × υ)) (k q : κ) (ks qs : List κ), k = q →
      mapCompareLoop cmpK cmpV zero a b (k :: ks) (q :: qs)
        = (if cmpV (mapRead a zero k) (mapRead b zero q) ≠ 0
            then cmpV (mapRead a zero k) (mapRead b zero q)
            else mapCompareLoop cmpK cmpV zero a b ks qs)) ∧
    (∀ (a b : List (κ × υ)) (k q : κ) (ks qs : List κ), k ≠ q →
      mapCompareLoop cmpK cmpV zero a b (k :: ks) (q :: qs)
        = (if cmpK k q ≠ 0 then cmpK k q
            else mapCompareLoop cmpK cmpV zero a b ks qs)) := by
  refine ⟨rfl, fun b => rfl, fun a => rfl, ?_, ?_, ?_, ?_⟩
  · intro a b h
    exact ⟨by simp [mapCompare, h], by simp [mapCompare, h]⟩
  · intro a b h
    simp [mapCompare, h]
  · intro a b k q ks qs hkq
    simp [mapCompareLoop, hkq]
  · intro a b k q ks qs hkq
    simp [mapCompareLoop, hkq]

/-- C4, witness: maps of sizes 1 and 2 compare negative for any
comparators and any sort. -/
theorem claim_C4_witness :
    mapCompare (fun _ _ => (9 : Int)) (fun _ _ => (9 : Int)) id (0 : Nat)
      (some [((1 : Nat), (1 : Nat))]) (some [(1, 1), (2, 2)]) = -1 := by
  have h := (claim_C4 (fun _ _ => (9 : Int)) (fun _ _ => (9 : Int))
    (fun _ _ => (9 : Int)) (fun _ _ => (9 : Int)) id id (0 : Nat) (0 : Nat)).2.2.2.1
    [((1 : Nat), (1 : Nat))] [(1, 1), (2, 2)] (by decide)
  simpa using h.1

/-- C5: the generated slice comparison decides nil cases (both-nil equal,
nil below non-nil) and any length mismatch — where the result is fixed by
the two lengths alone, independently of the element comparator, so no
element is inspected — before anything else; only when the lengths are
equal does it walk the elements in index order, returning the first
non-zero element comparison. -/
theorem claim_C5 {α : Type} (cmp cmpAlt : α → α → Int) :
    (sliceCompare cmp none none = 0) ∧
    (∀ ys : List α, sliceCompare cmp none (some ys) = -1) ∧
    (∀ xs : List α, sliceCompare cmp (some xs) none = 1) ∧
    (∀ xs ys : List α, xs.length ≠ ys.length →
      sliceCompare cmp (some xs) (some ys)
        = (if xs.length < ys.length then -1 else 1) ∧
      sliceCompare cmp (some xs) (some ys)
        = sliceCompare cmpAlt (some xs) (some ys)) ∧
    (∀ xs ys : List α, xs.length = ys.length →
      sliceCompare cmp (some xs) (some ys) = sliceCompareLoop cmp xs ys) ∧
    (∀ (x y : α) (xs ys : List α),
      sliceCompareLoop cmp (x :: xs) (y :: ys)
        = if cmp x y ≠ 0 then cmp x y else sliceCompareLoop cmp xs ys) := by
  refine ⟨rfl, fun ys => rfl, fun xs => rfl, ?_, ?_, ?_⟩
  · intro xs ys h
    exact ⟨by simp [sliceCompare, h], by simp [sliceCompare, h]⟩
  · intro xs ys h
    simp [sliceCompare, h]
  · intro x y xs ys
    simp [sliceCompareLoop]

/-- C5, witness (the spec's end-to-end scenario B): sequences of lengths 2
and 3 compare negative even under an element comparator that never
returns a negative value, so no element was inspected. -/
theorem claim_C5_witness :
    sliceCompare (fun _ _ => (37 : Int)) (some [0, 1]) (some [0, 1, 2]) = -1 := by
  have h := (claim_C5 (fun _ _ => (37 : Int)) (fun _ _ => (37 : Int))).2.2.2.1
    [0, 1] [0, 1, 2] (by decide)
  simpa using h.1

/-- C6: the generated slice deep-copy adjusts the destination to the
source's length before copying: a nil source sets the destination to nil;
a longer source reuses the destination's allocation when its capacity
suffices and allocates freshly otherwise; a shorter source truncates the
destination (same allocation, same capacity) rather than reallocating; a
nil destination is freshly allocated; and in every case the destination
then exposes exactly the recursively copied elements of the source. -/
theorem claim_C6 {α : Type} (zero : α) (f : α → α) (fresh : Nat) :
    (∀ dst, sliceCopyTo zero f none dst fresh = none) ∧
    (∀ s d r : GoSlice α, s.len ≤ s.back.length →
      sliceCopyTo zero f (some s) (some d) fresh = some r →
      r.len = s.len ∧ r.visible = s.visible.map f ∧
      (s.len > d.len → d.cap ≥ s.len → r.arr = d.arr ∧ r.cap = d.cap) ∧
      (s.len > d.len → d.cap < s.len → r.arr = fresh ∧ r.cap = s.len) ∧
      (s.len < d.len → r.arr = d.arr ∧ r.cap = d.cap) ∧
      (s.len = d.len → r.arr = d.arr ∧ r.cap = d.cap)) ∧
    (∀ s r : GoSlice α, s.len ≤ s.back.length →
      sliceCopyTo zero f (some s) none fresh = some r →
      r.arr = fresh ∧ r.len = s.len ∧ r.visible = s.visible.map f) := by
  have hvis : ∀ (s : GoSlice α), s.len ≤ s.back.length → ∀ rest : List α,
      ((s.back.take s.len).map f ++ rest).take s.len
        = (s.back.take s.len).map f := by
    intro s hle rest
    apply List.take_left'
    simp only [List.length_map, List.length_take]
    omega
  refine ⟨fun dst => rfl, ?_, ?_⟩
  · intro s d r hle heq
    simp only [sliceCopyTo] at heq
    by_cases h1 : s.len > d.len
    · by_cases h2 : d.cap ≥ s.len
      · rw [if_pos h1, if_pos h2] at heq
        injection heq with h
        subst h
        refine ⟨rfl, ?_,
          fun _ _ => ⟨rfl, rfl⟩,
          fun _ hc => absurd h2 (by omega),
          fun hlt => absurd hlt (by omega),
          fun heqq => by omega⟩
        show ((s.back.take s.len).map f ++ d.back.drop s.len).take s.len
          = (s.back.take s.len).map f
        exact hvis s hle _
      · rw [if_pos h1, if_neg h2] at heq
        injection heq with h
        subst h
        refine ⟨rfl, ?_,
          fun _ hc => absurd hc (by omega),
          fun _ _ => ⟨rfl, rfl⟩,
          fun hlt => absurd hlt (by omega),
          fun heqq => by omega⟩
        show ((s.back.take s.len).map f
            ++ (List.replicate s.len zero).drop s.len).take s.len
          = (s.back.take s.len).map f
        exact hvis s hle _
    · by_cases h3 : s.len < d.len
      · rw [if_neg h1, if_pos h3] at heq
        injection heq with h
        subst h
        refine ⟨rfl, ?_,
          fun hgt _ => absurd hgt (by omega),
          fun hgt _ => absurd hgt (by omega),
          fun _ => ⟨rfl, rfl⟩,
          fun _ => ⟨rfl, rfl⟩⟩
        show ((s.back.take s.len).map f ++ d.back.drop s.len).take s.len
          = (s.back.take s.len).map f
        exact hvis s hle _
      · rw [if_neg h1, if_neg h3] at heq
        injection heq with h
        subst h
        have hdl : d.len = s.len := by omega
        refine ⟨hdl, ?_,
          fun hgt _ => absurd hgt (by omega),
          fun hgt _ => absurd hgt (by omega),
          fun hlt => absurd hlt (by omega),
          fun _ => ⟨rfl, rfl⟩⟩
        show ((s.back.take s.len).map f ++ d.back.drop s.len).take d.len
          = (s.back.take s.len).map f
        rw [hdl]
        exact hvis s hle _
  · intro s r hle heq
    simp only [sliceCopyTo] at heq
    injection heq with h
    subst h
    refine ⟨rfl, rfl, ?_⟩
    show ((s.back.take s.len).map f
        ++ (List.replicate s.len zero).drop s.len).take s.len
      = (s.back.take s.len).map f
    exact hvis s hle _

/-- C6, witness: source of length 2 into a destination of length 1 with
capacity 3 — the allocation is reused, the length becomes 2, and the
destination exposes the element-copied source. -/
theorem claim_C6_witness :
    ((2 : Nat) ≤ 2) ∧
    (sliceCopyTo (0 : Nat) (fun x => x + 1) (some ⟨0, 2, 2, [10, 20]⟩)
        (some ⟨5, 1, 3, [7, 7, 7]⟩) 9 = some ⟨5, 2, 3, [11, 21, 7]⟩) ∧
    (⟨5, 2, 3, [11, 21, 7]⟩ : GoSlice Nat).len = 2 ∧
    (⟨5, 2, 3, [11, 21, 7]⟩ : GoSlice Nat).arr = 5 ∧
    (⟨5, 2, 3, [11, 21, 7]⟩ : GoSlice Nat).visible
      = (⟨0, 2, 2, [10, 20]⟩ : GoSlice Nat).visible.map (fun x => x + 1) := by
  have h := (claim_C6 (0 : Nat) (fun x => x + 1) 9).2.1
    ⟨0, 2, 2, [10, 20]⟩ ⟨5, 1, 3, [7, 7, 7]⟩ ⟨5, 2, 3, [11, 21, 7]⟩
    (by decide) rfl
  exact ⟨by decide, rfl, h.1, (h.2.2.1 (by decide) (by decide)).1, h.2.1⟩

mutual
/-- Helper: `canCopy` and `isComparable` are the same predicate. -/
theorem canCopy_eq_isComparable : ∀ t, canCopy t = isComparable t
  | .basic _ => rfl
  | .named _ _ u => by
      simpa [canCopy, isComparable] using canCopy_eq_isComparable u
  | .ptr _ => rfl
  | .array _ e => by
      simpa [canCopy, isComparable] using canCopy_eq_isComparable e
  | .slice _ => rfl
  | .mapT _ _ => rfl
  | .strct fs => by
      simpa [canCopy, isComparable] using canCopyFields_eq_isComparableFields fs

/-- Helper: field-list version of `canCopy_eq_isComparable`. -/
theorem canCopyFields_eq_isComparableFields :
    ∀ fs, canCopyFields fs = isComparableFields fs
  | .nil => rfl
  | .fcons _ _ t rest => by
      simp [canCopyFields, isComparableFields, canCopy_eq_isComparable t,
        canCopyFields_eq_isComparableFields rest]
end

mutual
/-- Helper: `canCopy` holds exactly on the inductive bulk-comparable
closure. -/
theorem canCopy_iff_bulk : ∀ t, canCopy t = true ↔ BulkComparable t
  | .basic k => by
      constructor
      · intro h
        exact .basicBC k (by simpa [canCopy] using h)
      · intro h
        cases h with
        | basicBC _ hk => simpa [canCopy] using hk
  | .named n b u => by
      constructor
      · intro h
        exact .namedBC n b u ((canCopy_iff_bulk u).mp (by simpa [canCopy] using h))
      · intro h
        cases h with
        | namedBC _ _ _ hu => simpa [canCopy] using (canCopy_iff_bulk u).mpr hu
  | .ptr e => by
      constructor
      · intro h
        simp [canCopy] at h
      · intro h
        cases h
  | .array n e => by
      constructor
      · intro h
        exact .arrayBC n e ((canCopy_iff_bulk e).mp (by simpa [canCopy] using h))
      · intro h
        cases h with
        | arrayBC _ _ he => simpa [canCopy] using (canCopy_iff_bulk e).mpr he
  | .slice e => by
      constructor
      · intro h
        simp [canCopy] at h
      · intro h
        cases h
  | .mapT k v => by
      constructor
      · intro h
        simp [canCopy] at h
      · intro h
        cases h
  | .strct fs => by
      constructor
      · intro h
        exact .structBC fs ((canCopyFields_iff_bulkFields fs).mp
          (by simpa [canCopy] using h))
      · intro h
        cases h with
        | structBC _ hf =>
          simpa [canCopy] using (canCopyFields_iff_bulkFields fs).mpr hf

/-- Helper: field-list version of `canCopy_iff_bulk`. -/
theorem canCopyFields_iff_bulkFields :
    ∀ fs, canCopyFields fs = true ↔ BulkFields fs
  | .nil => ⟨fun _ => .nilBF, fun _ => rfl⟩
  | .fcons nm p t rest => by
      constructor
      · intro h
        simp [canCopyFields] at h
        exact .consBF nm p t rest ((canCopy_iff_bulk t).mp h.1)
          ((canCopyFields_iff_bulkFields rest).mp h.2)
      · intro h
        cases h with
        | consBF _ _ _ _ ht hr =>
          simp [canCopyFields, (canCopy_iff_bulk t).mpr ht,
            (canCopyFields_iff_bulkFields rest).mpr hr]
end

/-- C7, counterexample: the claim's closure contains every Basic type,
but the code's predicate (`canCopy`, and equally `isComparable`) is false
on the untyped-nil basic kind, which `bulkSpec` — the claim's closure
rendered as written — accepts. -/
theorem claim_C7_counterexample :
    canCopy (GoType.basic BasicKind.untypedNil) = false ∧
    isComparable (GoType.basic BasicKind.untypedNil) = false ∧
    bulkSpec (GoType.basic BasicKind.untypedNil) = true := by
  exact ⟨rfl, rfl, rfl⟩

/-- C7, amended: `canCopy` and `isComparable` are the same predicate, and
they hold exactly on the transitive closure over the Basic types other
than untyped nil, named wrappings, fixed arrays with bulk-comparable
element, and aggregates all of whose fields are bulk-comparable; and
whenever a sequence element type is bulk-comparable the generated copyto
operation emits the single built-in bulk `copy` instead of an element
loop, while any bulk-comparable type (fixed arrays included) is copied at
top level by a single direct assignment. -/
theorem claim_C7_amended :
    (∀ t, canCopy t = isComparable t) ∧
    (∀ t, canCopy t = true ↔ BulkComparable t) ∧
    (∀ (e : GoType) (thisS thatS : String), canCopy e = true →
      copytoGenStatement (.slice e) thisS thatS
        = .ok [.copyB thatS thisS]) ∧
    (∀ (t : GoType) (thisS thatS : String), canCopy t = true →
      copytoGenStatement t thisS thatS = .ok [.assign thatS thisS]) := by
  refine ⟨canCopy_eq_isComparable, canCopy_iff_bulk, ?_, ?_⟩
  · intro e thisS thatS h
    have hs : canCopy (.slice e) = false := rfl
    simp [copytoGenStatement, hs, h]
  · intro t thisS thatS h
    rw [copytoGenStatement.eq_def, h]
    simp

/-- C7, witness: a slice of `int` is bulk-copied with a single `copy`
statement, and a fixed array of `int` is bulk-copied by direct
assignment. -/
theorem claim_C7_witness :
    copytoGenStatement (GoType.slice (GoType.basic BasicKind.intK)) "this" "that"
      = Except.ok [CStmt.copyB "that" "this"] ∧
    copytoGenStatement (GoType.array 4 (GoType.basic BasicKind.intK)) "this" "that"
      = Except.ok [CStmt.assign "that" "this"] :=
  ⟨claim_C7_amended.2.2.1 (GoType.basic BasicKind.intK) "this" "that" rfl,
   claim_C7_amended.2.2.2 (GoType.array 4 (GoType.basic BasicKind.intK))
     "this" "that" rfl⟩

/-- C8, counterexample: an aggregate with an accessible field `A` and an
inaccessible field `b` is marked as requiring low-level access
(`anyPrivate = true`, so the reflect preamble is emitted), yet the
generated copy accesses `A` through the ordinary selector and only `b`
through the low-level fallback — a mix of both access paths on the same
aggregate, where the claim requires all accesses to go through the
fallback uniformly. -/
theorem claim_C8_counterexample :
    copytoGenStatement
        (GoType.ptr (GoType.named "T" false (GoType.strct
          (FieldList.fcons "A" false (GoType.basic BasicKind.intK)
            (FieldList.fcons "b" true (GoType.basic BasicKind.intK)
              FieldList.nil)))))
        "this" "that"
      = Except.ok
          [CStmt.reflectSetup "this_v" "this",
           CStmt.reflectSetup "that_v" "that",
           CStmt.assign (ordinaryAccess "that" "A") (ordinaryAccess "this" "A"),
           CStmt.assign (fallbackAccess "that_v" "b" (GoType.basic BasicKind.intK))
             (fallbackAccess "this_v" "b" (GoType.basic BasicKind.intK))] ∧
    anyPrivate (FieldList.fcons "A" false (GoType.basic BasicKind.intK)
      (FieldList.fcons "b" true (GoType.basic BasicKind.intK) FieldList.nil))
      = true ∧
    CStmt.assign (ordinaryAccess "that" "A") (ordinaryAccess "this" "A")
      ≠ CStmt.assign (fallbackAccess "that_v" "A" (GoType.basic BasicKind.intK))
          (fallbackAccess "this_v" "A" (GoType.basic BasicKind.intK)) := by
  refine ⟨rfl, rfl, ?_⟩
  intro h
  injection h with h1 h2
  exact absurd h1 (by decide)

/-- C8, amended: the access path is chosen per field, not per aggregate —
a field goes through the low-level fallback exactly when that field itself
is inaccessible, while accessible fields of the same aggregate keep
ordinary selector access; the reflect preamble is emitted for the
aggregate exactly when some field is inaccessible; and the per-field
emissions are concatenated in declaration order. -/
theorem claim_C8_amended (thisS thatS thisv thatv name : String) (priv : Bool)
    (ft : GoType) :
    (fieldAccessPair thisS thatS thisv thatv name priv ft
      = if priv then (fallbackAccess thisv name ft, fallbackAccess thatv name ft)
        else (ordinaryAccess thisS name, ordinaryAccess thatS name)) ∧
    (∀ (nm : String) (hc : Bool) (n : String) (p : Bool) (t : GoType)
        (rest : FieldList) (body : List CStmt),
      copytoFieldsStmts (.fcons n p t rest) thisS thatS
          (prepend thisS "v") (prepend thatS "v") = .ok body →
      copytoGenStatement (.ptr (.named nm hc (.strct (.fcons n p t rest))))
          thisS thatS
        = .ok ((if anyPrivate (.fcons n p t rest) then
              [.reflectSetup (prepend thisS "v") thisS,
               .reflectSetup (prepend thatS "v") thatS]
            else []) ++ body)) ∧
    (∀ (n : String) (p : Bool) (t : GoType) (rest : FieldList)
        (sts rts : List CStmt),
      copytoGenField t (fieldAccessPair thisS thatS thisv thatv n p t).1
          (fieldAccessPair thisS thatS thisv thatv n p t).2 = .ok sts →
      copytoFieldsStmts rest thisS thatS thisv thatv = .ok rts →
      copytoFieldsStmts (.fcons n p t rest) thisS thatS thisv thatv
        = .ok (sts ++ rts)) := by
  refine ⟨by cases priv <;> rfl, ?_, ?_⟩
  · intro nm hc n p t rest body hbody
    have hcc : canCopy (.ptr (.named nm hc (.strct (.fcons n p t rest)))) = false := rfl
    simp [copytoGenStatement, hcc, hbody]
  · intro n p t rest sts rts hf hr
    simp [copytoFieldsStmts, hf, hr]
    rfl

/-- C8, witness for the amended theorem: an aggregate whose only field is
accessible emits no reflect preamble and uses ordinary access. -/
theorem claim_C8_witness :
    copytoGenStatement
        (GoType.ptr (GoType.named "T" false (GoType.strct
          (FieldList.fcons "A" false (GoType.basic BasicKind.intK)
            FieldList.nil))))
        "this" "that"
      = Except.ok [CStmt.assign (ordinaryAccess "that" "A")
          (ordinaryAccess "this" "A")] := by
  have h := (claim_C8_amended "this" "that" "this_v" "that_v" "A" false
    (GoType.basic BasicKind.intK)).2.1 "T" false "A" false
    (GoType.basic BasicKind.intK) FieldList.nil
    [CStmt.assign (ordinaryAccess "that" "A") (ordinaryAccess "this" "A")] rfl
  simpa using h

/-- C9, counterexample: a deep-copy request with two identical `int`
arguments — a type that is not reference-capable (not a pointer, sequence
or map) — is not rejected by `Add`: with a conflict-free registry it
passes `Add`'s own checks, succeeds, and reserves a name. -/
theorem claim_C9_counterexample :
    copytoAdd ⟨[], [], false⟩ "deriveCopyToint"
        [GoType.basic BasicKind.intK, GoType.basic BasicKind.intK]
      = Except.ok ("deriveCopyToint",
          ⟨[("deriveCopyToint", GoType.basic BasicKind.intK)], [], false⟩) ∧
    referenceCapable (GoType.basic BasicKind.intK) = false := by
  exact ⟨rfl, rfl⟩

/-- C9, amended: `Add` itself checks only that the request has exactly two
arguments and that the two argument types are identical — a violated check
is an error, and reference-capability is never checked; a request passing
both checks is handed to the registry's reserve, whose outcome decides the
result: a name colliding with a pre-existing user function is a
naming-conflict error (when autoname is off) and reserves nothing, and
every success — fresh reservation, memoized hit, or autoname rename —
returns a name that is reserved for the argument type in the resulting
registry. -/
theorem claim_C9_amended (reg : Registry) (name : String)
    (typs : List GoType) :
    (typs.length ≠ 2 → ∃ e, copytoAdd reg name typs = .error e) ∧
    (∀ t0 t1, typs = [t0, t1] → t0 ≠ t1 →
      ∃ e, copytoAdd reg name typs = .error e) ∧
    (∀ t0, typs = [t0, t0] →
      copytoAdd reg name typs = setFuncName reg name t0) ∧
    (∀ t0, typs = [t0, t0] → (name, t0) ∉ reg.reserved →
      reg.userFuncs.contains name = true → reg.autoname = false →
      ∃ e, copytoAdd reg name typs = .error e) ∧
    (∀ t0, typs = [t0, t0] → (name, t0) ∉ reg.reserved →
      reg.userFuncs.contains name = false →
      copytoAdd reg name typs
        = .ok (name, { reg with reserved := reg.reserved ++ [(name, t0)] })) ∧
    (∀ t0 n2 reg2, typs = [t0, t0] →
      copytoAdd reg name typs = .ok (n2, reg2) →
      (n2, t0) ∈ reg2.reserved) := by
  have hdeleg : ∀ t0, copytoAdd reg name [t0, t0] = setFuncName reg name t0 := by
    intro t0
    simp [copytoAdd, Identical]
  refine ⟨?_, ?_, ?_, ?_, ?_, ?_⟩
  · intro h
    exact ⟨name ++ " does not have two arguments", by simp [copytoAdd, h]⟩
  · intro t0 t1 heq hne
    subst heq
    exact ⟨name ++ " has two arguments, but they are of different types "
        ++ typeString t0 ++ " != " ++ typeString t1,
      by simp [copytoAdd, Identical, hne]⟩
  · intro t0 heq
    subst heq
    exact hdeleg t0
  · intro t0 heq hmem hconf hauto
    subst heq
    have hconf2 : name ∈ reg.userFuncs := by simpa using hconf
    exact ⟨"naming conflict: a user function " ++ name ++ " already exists",
      by rw [hdeleg t0]; simp [setFuncName, hmem, hconf2, hauto]⟩
  · intro t0 heq hmem hconf
    subst heq
    have hconf2 : name ∉ reg.userFuncs := by simpa using hconf
    rw [hdeleg t0]
    simp [setFuncName, hmem, hconf2]
  · intro t0 n2 reg2 heq hok
    subst heq
    rw [hdeleg t0] at hok
    unfold setFuncName at hok
    split_ifs at hok with h1 h2 h3
    · injection hok with h
      injection h with hn hr
      subst hn; subst hr
      exact h1
    · injection hok with h
      injection h with hn hr
      subst hn; subst hr
      simp
    · injection hok with h
      injection h with hn hr
      subst hn; subst hr
      simp

/-- C9, witness for the amended theorem: a request on two identical
pointer types, with no conflicting user function, succeeds and reserves
the name in the registry. -/
theorem claim_C9_witness :
    copytoAdd ⟨[], [], false⟩ "deriveCopyToPtrToint"
        [GoType.ptr (GoType.basic BasicKind.intK),
         GoType.ptr (GoType.basic BasicKind.intK)]
      = Except.ok ("deriveCopyToPtrToint",
          ⟨[("deriveCopyToPtrToint", GoType.ptr (GoType.basic BasicKind.intK))],
           [], false⟩) := by
  have h := (claim_C9_amended ⟨[], [], false⟩ "deriveCopyToPtrToint"
    _).2.2.2.2.1 (GoType.ptr (GoType.basic BasicKind.intK)) rfl
    (by simp) rfl
  simpa using h

end Goderive
